import Mathlib

/-!
Shallow embedding of `banks_project.py`, a four-stage ETL script:
fetch HTML, extract one table anchored by a caption, append
currency-converted columns, and persist/query the result.

Modelling conventions:
* Scalar cell values are either text or exact decimal numbers
  `m / 10 ^ e` (Python's binary floats are idealised as exact decimals;
  the spec's own design notes leave the sub-ULP float behaviour open).
* `round(x, 2)` is Python's documented round-half-to-even, embedded as
  integer arithmetic on scaled decimals (`decRound2`).
* The HTML parser is an external collaborator ("parse(html) -> queryable
  node tree" per the spec), so markup is embedded post-parse as a list of
  nodes in document order; the pandas cell-coercion collaborator is
  embedded as `coerceCell` (a cell becomes numeric exactly when the whole
  cell text parses as a decimal literal).
* Fallible Python code (raised exceptions) becomes `Except`/`Option`.
-/

namespace Banks

/-- A scalar cell value: text, or the exact decimal number `m / 10 ^ e`. -/
inductive Value where
  | s (text : String)
  | n (m : Int) (e : Nat)
deriving DecidableEq, Repr

/-- Value-level equality of cells: texts compare as texts, decimals by the
rational they denote (`m / 10 ^ e = m' / 10 ^ e'`). -/
def Value.valEq : Value → Value → Bool
  | .s a, .s b => a == b
  | .n m e, .n m' e' => m * (10 : Int) ^ e' == m' * (10 : Int) ^ e
  | _, _ => false

/-- Python's `round(q, 2)` on the exact decimal `m / 10 ^ e`, returning the
scaled mantissa of a 2-decimal result: round-half-to-even of
`m / 10 ^ (e - 2)`, by integer floor division. -/
def decRound2 (m : Int) (e : Nat) : Int :=
  if e ≤ 2 then m * (10 : Int) ^ (2 - e)
  else
    let d : Int := (10 : Int) ^ (e - 2)
    let q : Int := Int.fdiv m d
    let r : Int := m - q * d
    if 2 * r < d then q
    else if d < 2 * r then q + 1
    else if q % 2 = 0 then q else q + 1

/-- An exchange rate as an exact decimal: `(rm, re)` denotes `rm / 10 ^ re`. -/
abbrev Dec := Int × Nat

/-- The fixed source column of `transform_market_cap` (line 86 of the source). -/
def sourceCol : String := "Market cap (US$ billion)"

/-- The f-string `f'MC_{currency}_Billion'` naming a derived column. -/
def mcName (currency : String) : String := "MC_" ++ currency ++ "_Billion"

/-! ### Decimal text: rendering and parsing

Used by the CSV sink model and by the cell-coercion model of the tabular
parser. Rendering is locale independent: optional sign, integer digits,
and for a fractional value a point followed by exactly `e` digits. -/

/-- The character for one decimal digit. -/
def digitChar : Nat → Char
  | 0 => '0' | 1 => '1' | 2 => '2' | 3 => '3' | 4 => '4'
  | 5 => '5' | 6 => '6' | 7 => '7' | 8 => '8' | _ => '9'

/-- Is the character a decimal digit? -/
def isDigitChar (c : Char) : Bool := 48 ≤ c.toNat && c.toNat ≤ 57

/-- The numeric value of a digit character. -/
def dval (c : Char) : Nat := c.toNat - 48

/-- Fuel-bounded rendering of a natural number, most significant digit
first; `fuel` bounds the number of digits. -/
def renderNatAux : Nat → Nat → List Char
  | 0, _ => []
  | fuel + 1, n =>
    if n < 10 then [digitChar n]
    else renderNatAux fuel (n / 10) ++ [digitChar (n % 10)]

/-- Decimal digits of a natural number, most significant first. -/
def renderNat (n : Nat) : List Char := renderNatAux (n + 1) n

/-- Exactly `e` decimal digits of `r` (the low `e` digits, zero padded). -/
def renderFix : Nat → Nat → List Char
  | 0, _ => []
  | e + 1, r => renderFix e (r / 10) ++ [digitChar (r % 10)]

/-- Locale-independent rendering of a cell value, as pandas writes it. -/
def renderValue : Value → String
  | .s t => t
  | .n m 0 => ⟨(if m < 0 then ['-'] else []) ++ renderNat m.natAbs⟩
  | .n m (e + 1) =>
    ⟨(if m < 0 then ['-'] else []) ++
      renderNat (m.natAbs / 10 ^ (e + 1)) ++
      '.' :: renderFix (e + 1) (m.natAbs % 10 ^ (e + 1))⟩

/-- Horner accumulation of a digit string onto `acc`. -/
def digitsValFrom (acc : Nat) (cs : List Char) : Nat :=
  cs.foldl (fun a c => a * 10 + dval c) acc

/-- Consume a maximal run of leading digits, Horner-accumulating onto
`acc`; returns the value and the unconsumed remainder. -/
def takeDigits : List Char → Nat → Nat × List Char
  | [], acc => (acc, [])
  | c :: cs, acc =>
    if isDigitChar c then takeDigits cs (acc * 10 + dval c)
    else (acc, c :: cs)

/-- Parse an unsigned decimal literal `digits (. digits)?` covering the
whole character list; result is the exact decimal it denotes. -/
def parseUnsigned : List Char → Option (Int × Nat)
  | [] => none
  | c :: cs =>
    if isDigitChar c then
      match takeDigits (c :: cs) 0 with
      | (ip, []) => some ((ip : Int), 0)
      | (ip, '.' :: fs) =>
        if fs ≠ [] && fs.all isDigitChar then
          some ((ip : Int) * (10 : Int) ^ fs.length + (digitsValFrom 0 fs : Int),
            fs.length)
        else none
      | (_, _ :: _) => none
    else none

/-- Parse an optionally `-`-signed decimal literal covering the whole
character list. -/
def parseSigned : List Char → Option (Int × Nat)
  | [] => none
  | c :: rest =>
    if c = '-' then (parseUnsigned rest).map (fun p => (-p.1, p.2))
    else parseUnsigned (c :: rest)

/-- Does the whole string parse as a decimal literal
(`-? digits (. digits)?`)? If so return the exact decimal `(m, e)` it
denotes. This models the numeric-coercion behaviour of the tabular
collaborators (`pd.read_html` / `pd.read_csv`), per the spec's contract
"cell text is coerced to a numeric type exactly when the entire cell
parses as a number". -/
def parseNumber (s : String) : Option (Int × Nat) :=
  parseSigned s.data

/-- Coerce one cell's text: numeric when the entire text parses as a
decimal literal, text otherwise. -/
def coerceCell (t : String) : Value :=
  match parseNumber t with
  | some (m, e) => .n m e
  | none => .s t

/-! ### The Table data model (a pandas DataFrame, row oriented) -/

/-- A DataFrame: an ordered list of column names and the rows in order,
each row listing its cells in column order. -/
structure Table where
  cols : List String
  rows : List (List Value)
deriving DecidableEq, Repr

/-- Well-formedness: every row has one cell per declared column. -/
def Table.wf (t : Table) : Prop :=
  ∀ r ∈ t.rows, r.length = t.cols.length

/-- Position of a column name, leftmost first. -/
def idxOf : List String → String → Option Nat
  | [], _ => none
  | c :: cs, name => if c = name then some 0 else (idxOf cs name).map (· + 1)

/-- `df[name]` read: the column's cell list, or `none` (a `KeyError`)
when the name is absent. -/
def getColumn (t : Table) (name : String) : Option (List Value) :=
  match idxOf t.cols name with
  | some i => some (t.rows.map (fun r => r.getD i (.s "")))
  | none => none

/-- `df[name] = vals` assignment: overwrite the column in place when the
name exists, else append it as the new last column. -/
def setColumn (t : Table) (name : String) (vals : List Value) : Table :=
  match idxOf t.cols name with
  | some i => ⟨t.cols, (t.rows.zip vals).map (fun p => p.1.set i p.2)⟩
  | none => ⟨t.cols ++ [name], (t.rows.zip vals).map (fun p => p.1 ++ [p.2])⟩

/-! ### Currency Transformer (`transform_market_cap`) -/

/-- The transform's failure modes: `df['Market cap (US$ billion)']` on a
missing column (Python `KeyError`; the spec's `MissingColumnError`), or
`x * rate` on non-numeric `x` (Python `TypeError`; the spec's
`NonNumericValueError`). -/
inductive TransformError where
  | missingColumn
  | nonNumericValue
deriving DecidableEq, Repr

/-- `round(x * rate, 2)` on a numeric cell; `none` on a text cell. -/
def convertCell (rate : Dec) : Value → Option Value
  | .s _ => none
  | .n m e => some (.n (decRound2 (m * rate.1) (e + rate.2)) 2)

/-- Total version of `convertCell` (used to state closed forms; on text
cells it is junk, they are ruled out by hypotheses). -/
def conv (rate : Dec) : Value → Value
  | .s t => .s t
  | .n m e => .n (decRound2 (m * rate.1) (e + rate.2)) 2

/-- One iteration of the transform's `for` loop: read the source column,
convert every cell, assign the derived column. -/
def transformStep (t : Table) (p : String × Dec) : Except TransformError Table :=
  match getColumn t sourceCol with
  | none => .error .missingColumn
  | some vals =>
    match vals.mapM (convertCell p.2) with
    | none => .error .nonNumericValue
    | some nv => .ok (setColumn t (mcName p.1) nv)

/-- The transform's `for currency, rate in exchange_rates.items()` loop;
a raised exception aborts the remaining iterations. -/
def transformLoop : Table → List (String × Dec) → Except TransformError Table
  | t, [] => .ok t
  | t, p :: ps =>
    match transformStep t p with
    | .error e => .error e
    | .ok t' => transformLoop t' ps

/-- `transform_market_cap(df, exchange_rates)` (lines 85-88); the rates
dict is embedded as an association list in its iteration (insertion)
order. -/
def transform_market_cap (df : Table) (exchange_rates : List (String × Dec)) :
    Except TransformError Table :=
  transformLoop df exchange_rates

/-! ### Table Extractor (`extract_table`) -/

/-- A parsed markup document node, in document order: an element with a
tag and its text content, or a table-like structure given as its rows of
cell texts (the DOM/tabular parsers are external collaborators, so the
document is embedded post-parse). -/
inductive Node where
  | elem (tag : String) (text : String)
  | table (cells : List (List String))
deriving DecidableEq, Repr

/-- The extractor's failure modes: `soup.find('span', ...)` returning
`None` (Python `AttributeError` on `.find_next`; the spec's
`AnchorNotFoundError`), or `pd.read_html` finding no parseable table
(Python `ValueError`, re-raised; the spec's `TableParseError`). -/
inductive ExtractError where
  | anchorNotFound
  | tableParse
deriving DecidableEq, Repr

/-- `soup.find('span', string=anchor)`: the first `span` element whose
text equals the anchor exactly; returns the nodes after it. -/
def findFirstSpan (anchor : String) : List Node → Option (List Node)
  | [] => none
  | .elem tag text :: rest =>
    if tag = "span" && text = anchor then some rest
    else findFirstSpan anchor rest
  | .table _ :: rest => findFirstSpan anchor rest

/-- `.find_next('table')`: the first table-like structure among the
following nodes in document order. -/
def findFirstTable : List Node → Option (List (List String))
  | [] => none
  | .table cells :: _ => some cells
  | .elem _ _ :: rest => findFirstTable rest

/-- `pd.read_html` on one table: first row becomes the header, later rows
become the records, each cell coerced by `coerceCell`; an empty table is
unparseable (`ValueError: No tables found`). -/
def fromRows : List (List String) → Option Table
  | [] => none
  | header :: dataRows => some ⟨header, dataRows.map (fun r => r.map coerceCell)⟩

/-- `extract_table(html, table_attribs)` (lines 44-50) over the parsed
document: find the first matching `span`, take the nearest following
table, convert it. A missing table also lands in `tableParse`, because
the source stringifies `None` and hands it to `pd.read_html`, whose
`ValueError` is caught and re-raised as the table-parse failure. -/
def extract_table (doc : List Node) (table_attribs : String) :
    Except ExtractError Table :=
  match findFirstSpan table_attribs doc with
  | none => .error .anchorNotFound
  | some rest =>
    match findFirstTable rest with
    | none => .error .tableParse
    | some cells =>
      match fromRows cells with
      | none => .error .tableParse
      | some t => .ok t

/-- Spec-worded variant of the anchor search, for comparison with the
source: the spec says the anchor is "the first element (of any kind)
whose text content equals the anchor text", with no tag restriction. -/
def findFirstAnyElem (anchor : String) : List Node → Option (List Node)
  | [] => none
  | .elem _ text :: rest =>
    if text = anchor then some rest else findFirstAnyElem anchor rest
  | .table _ :: rest => findFirstAnyElem anchor rest

/-- Spec-worded variant of `extract_table` (anchor may be any element,
not only a `span`); used to contrast the spec's claim with the source. -/
def extract_table_anyElem (doc : List Node) (table_attribs : String) :
    Except ExtractError Table :=
  match findFirstAnyElem table_attribs doc with
  | none => .error .anchorNotFound
  | some rest =>
    match findFirstTable rest with
    | none => .error .tableParse
    | some cells =>
      match fromRows cells with
      | none => .error .tableParse
      | some t => .ok t

/-! ### Fetcher (`fetch_html`) -/

/-- Outcome of the single `requests.get(url)` transport call: a response
with a status code and body, or a transport-level failure (connection
error, timeout, ...). -/
inductive Transport where
  | response (status : Nat) (body : String)
  | netError (detail : String)
deriving DecidableEq, Repr

/-- The spec's `FetchError`, carrying the underlying detail: either the
transport failure or the non-success status that `raise_for_status`
rejected. -/
inductive FetchError where
  | transport (detail : String)
  | status (code : Nat)
deriving DecidableEq, Repr

/-- `fetch_html(url)` (lines 23-28) over the transport outcome of its one
`requests.get` call: `raise_for_status` raises exactly for status codes
in `[400, 600)`, and every `RequestException` is re-raised as the fetch
failure. -/
def fetch_html : Transport → Except FetchError String
  | .response status body =>
    if 400 ≤ status ∧ status < 600 then .error (.status status)
    else .ok body
  | .netError detail => .error (.transport detail)

/-! ### Pipeline Driver (`extract` and `main`) -/

/-- The anchor text `main` passes to the extractor. -/
def anchorText : String := "By market capitalization"

/-- One run's environment: the outcome of the transport call, the parsed
document of the fetched body, the exchange-rate map, and whether each
sink operation would succeed. -/
structure Env where
  transport : Transport
  doc : List Node
  rates : List (String × Dec)
  csvOk : Bool
  dbOk : Bool
  queryOk : Bool
deriving Repr

/-- `extract(url, table_attribs)` (lines 63-70): run fetch then table
extraction; any failure is caught, logged, and flattened to `None`. -/
def extract (env : Env) : Option Table :=
  match fetch_html env.transport with
  | .error _ => none
  | .ok _ =>
    match extract_table env.doc anchorText with
    | .error _ => none
    | .ok t => some t

/-- Observable trace of one `main()` run: the process exit status and
which stages were attempted / whether `logging.error` ran. -/
structure RunTrace where
  exitSuccess : Bool
  loggedError : Bool
  transformAttempted : Bool
  csvAttempted : Bool
  dbAttempted : Bool
  queriesAttempted : Bool
deriving DecidableEq, Repr

/-- `main()` (lines 130-153): on `extract` returning `None` the `if df is
not None` guard skips every later stage and the process still ends
normally (exit status 0); an exception out of the transform, either
write, or a query propagates and aborts the run with a failure status. -/
def main (env : Env) : RunTrace :=
  match extract env with
  | none => ⟨true, true, false, false, false, false⟩
  | some df =>
    match transform_market_cap df env.rates with
    | .error _ => ⟨false, false, true, false, false, false⟩
    | .ok _ =>
      if env.csvOk = false then ⟨false, false, true, true, false, false⟩
      else if env.dbOk = false then ⟨false, false, true, true, true, false⟩
      else if env.queryOk = false then ⟨false, false, true, true, true, true⟩
      else ⟨true, false, true, true, true, true⟩

/-! ### Sink: the CSV flat file (`load_to_csv`) -/

/-- `df.to_csv(path, index=False)`, modelled at field granularity: the
file is the header fields followed by one list of rendered fields per
row (comma joining/splitting with quoting is the CSV layer, an exact
inverse pair handled by the collaborator). -/
def writeCSV (t : Table) : List (List String) :=
  t.cols :: t.rows.map (fun r => r.map renderValue)

/-- Re-parsing the written file: first line is the header, every later
line one row, cells coerced as the tabular collaborator does. -/
def parseCSV : List (List String) → Option Table
  | [] => none
  | header :: lines => some ⟨header, lines.map (fun r => r.map coerceCell)⟩

/-- A cell that survives the CSV round trip: every numeric cell does, and
a text cell does exactly when its text is not itself a decimal literal. -/
def Value.stable : Value → Prop
  | .s t => parseNumber t = none
  | .n _ _ => True

/-- Does this node match the source's anchor search
(`soup.find('span', string=anchor)`)? -/
def spanMatches (anchor : String) : Node → Bool
  | .elem tag text => tag = "span" && text = anchor
  | .table _ => false

/-- Does this node carry text content equal to the anchor (any element)? -/
def elemTextIs (anchor : String) : Node → Bool
  | .elem _ text => text = anchor
  | .table _ => false

/-- Is this node a table-like structure? -/
def isTableNode : Node → Bool
  | .table _ => true
  | .elem _ _ => false


/-- The transform's success precondition: the source column is readable
and every cell in it is numeric. -/
def srcOK (t : Table) : Prop :=
  ∃ i, idxOf t.cols sourceCol = some i ∧
    ∀ r ∈ t.rows, ∃ m e, r.getD i (Value.s "") = Value.n m e


/-! ### Concrete fixtures used by counterexamples and witnesses -/

instance instDecidableStable : (v : Value) → Decidable v.stable
  | .s t => by unfold Value.stable; infer_instance
  | .n _ _ => by unfold Value.stable; infer_instance

/-- A table whose source column is numeric but which already carries a
derived column named `MC_EUR_Billion`. -/
def cx1T : Table := ⟨[sourceCol, "MC_EUR_Billion"], [[Value.n 100 0, Value.s "old"]]⟩

/-- A one-row table with the source column present. -/
def w1T : Table := ⟨["Rank", sourceCol], [[Value.n 1 0, Value.n 1000 1]]⟩

/-- The EUR/GBP rate map of the spec's end-to-end scenario
(`0.93 = 93 / 10 ^ 2`, `0.8 = 8 / 10 ^ 1`), in insertion order. -/
def scenarioRates : List (String × Dec) := [("EUR", (93, 2)), ("GBP", (8, 1))]

/-- The spec's end-to-end markup, post-parse: the anchoring span followed
by the one-row bank table. -/
def c2Doc : List Node :=
  [.elem "span" "By market capitalization",
   .table [["Rank", "Bank name", "Market cap (US$ billion)"],
           ["1", "ExampleBank", "100.0"]]]

/-- Extraction followed by the currency transform on the end-to-end
scenario input. -/
def c2Run : Option Table :=
  match extract_table c2Doc anchorText with
  | .error _ => none
  | .ok t => (transform_market_cap t scenarioRates).toOption

/-- What the pipeline produces on the end-to-end scenario. -/
def c2Result : Table :=
  ⟨["Rank", "Bank name", "Market cap (US$ billion)", "MC_EUR_Billion",
      "MC_GBP_Billion"],
   [[Value.n 1 0, Value.s "ExampleBank", Value.n 1000 1, Value.n 9300 2,
      Value.n 8000 2]]⟩

/-- A table without the source column. -/
def cx3T : Table := ⟨["A"], [[Value.s "q"]]⟩

/-- As `cx1T`: numeric source plus a pre-existing derived column. -/
def cx3Over : Table := ⟨[sourceCol, "MC_EUR_Billion"], [[Value.n 100 0, Value.s "old"]]⟩

/-- A document where a `div` carries the anchor text before one table and
a `span` carries it before a second table. -/
def c4Doc : List Node :=
  [.elem "div" "By market capitalization",
   .table [["H"], ["a"]],
   .elem "span" "By market capitalization",
   .table [["H"], ["b"]]]

/-- A run whose transport call fails. -/
def c6Env : Env := ⟨.netError "connection refused", [], [], true, true, true⟩

/-- A run whose transport call yields a server error status. -/
def c7Env : Env := ⟨.response 500 "oops", [], [], true, true, true⟩

/-- A table of round-trip-stable cells. -/
def w9T : Table :=
  ⟨["Bank name", "MC_EUR_Billion"], [[Value.s "ExampleBank", Value.n 9300 2]]⟩

/-- As `cx1T`: numeric source plus a pre-existing derived column. -/
def cx10T : Table := ⟨[sourceCol, "MC_EUR_Billion"], [[Value.n 100 0, Value.s "old"]]⟩


/-! ### Lemmas: decimal text renders and parses back exactly -/

theorem dval_digitChar {d : Nat} (h : d < 10) : dval (digitChar d) = d := by
  interval_cases d <;> decide

theorem isDigitChar_digitChar {d : Nat} (h : d < 10) :
    isDigitChar (digitChar d) = true := by
  interval_cases d <;> decide

theorem digitsValFrom_append (acc : Nat) (xs ys : List Char) :
    digitsValFrom acc (xs ++ ys) = digitsValFrom (digitsValFrom acc xs) ys := by
  simp [digitsValFrom, List.foldl_append]

theorem digitsValFrom_cons (acc : Nat) (c : Char) (cs : List Char) :
    digitsValFrom acc (c :: cs) = digitsValFrom (acc * 10 + dval c) cs := rfl

theorem renderNatAux_digits (fuel : Nat) :
    ∀ n, ∀ c ∈ renderNatAux fuel n, isDigitChar c = true := by
  induction fuel with
  | zero => intro n c hc; simp [renderNatAux] at hc
  | succ f ih =>
    intro n c hc
    simp only [renderNatAux] at hc
    split at hc
    · rename_i h10
      simp only [List.mem_singleton] at hc
      subst hc
      exact isDigitChar_digitChar h10
    · rcases List.mem_append.1 hc with h1 | h1
      · exact ih _ _ h1
      · simp only [List.mem_singleton] at h1
        subst h1
        exact isDigitChar_digitChar (Nat.mod_lt _ (by omega))

theorem renderNatAux_ne_nil (f n : Nat) : renderNatAux (f + 1) n ≠ [] := by
  simp only [renderNatAux]
  split <;> simp

theorem digitsValFrom_renderNatAux (fuel : Nat) :
    ∀ n acc, n < 10 ^ fuel →
      digitsValFrom acc (renderNatAux fuel n) =
        acc * 10 ^ (renderNatAux fuel n).length + n := by
  induction fuel with
  | zero =>
    intro n acc h
    interval_cases n
    simp [renderNatAux, digitsValFrom]
  | succ f ih =>
    intro n acc h
    simp only [renderNatAux]
    split
    · rename_i h10
      simp [digitsValFrom, dval_digitChar h10]
    · rename_i h10
      push_neg at h10
      have hdiv : n / 10 < 10 ^ f := by
        rw [Nat.div_lt_iff_lt_mul (by omega)]
        calc n < 10 ^ (f + 1) := h
          _ = 10 ^ f * 10 := by ring
      rw [digitsValFrom_append, ih _ _ hdiv, digitsValFrom_cons]
      simp only [digitsValFrom, List.foldl_nil, List.length_append,
        List.length_singleton]
      rw [dval_digitChar (Nat.mod_lt _ (by omega : (0:Nat) < 10))]
      rw [pow_succ, ← mul_assoc]
      have hdm := Nat.div_add_mod n 10
      generalize acc * 10 ^ (renderNatAux f (n / 10)).length = A at *
      omega

theorem lt_ten_pow_succ (n : Nat) : n < 10 ^ (n + 1) :=
  lt_of_lt_of_le (Nat.lt_two_pow n)
    (le_trans (Nat.pow_le_pow_left (by omega) n)
      (Nat.pow_le_pow_right (by omega) (by omega)))

theorem renderNat_digits (n : Nat) : ∀ c ∈ renderNat n, isDigitChar c = true :=
  renderNatAux_digits (n + 1) n

theorem renderNat_ne_nil (n : Nat) : renderNat n ≠ [] :=
  renderNatAux_ne_nil n n

theorem digitsValFrom_renderNat (n : Nat) : digitsValFrom 0 (renderNat n) = n := by
  have h := digitsValFrom_renderNatAux (n + 1) n 0 (lt_ten_pow_succ n)
  simpa [renderNat] using h

theorem takeDigits_digits_append (ds : List Char) :
    ∀ rest acc, (∀ c ∈ ds, isDigitChar c = true) →
      takeDigits (ds ++ rest) acc = takeDigits rest (digitsValFrom acc ds) := by
  induction ds with
  | nil => intro rest acc _; simp [digitsValFrom]
  | cons c cs ih =>
    intro rest acc h
    have hc : isDigitChar c = true := h c (by simp)
    rw [List.cons_append]
    rw [show takeDigits (c :: (cs ++ rest)) acc =
      takeDigits (cs ++ rest) (acc * 10 + dval c) by simp [takeDigits, hc]]
    rw [ih _ _ (fun x hx => h x (List.mem_cons_of_mem _ hx)), digitsValFrom_cons]

theorem renderFix_digits : ∀ (e r : Nat), ∀ c ∈ renderFix e r, isDigitChar c = true := by
  intro e
  induction e with
  | zero => intro r c hc; simp [renderFix] at hc
  | succ f ih =>
    intro r c hc
    simp only [renderFix] at hc
    rcases List.mem_append.1 hc with h1 | h1
    · exact ih _ _ h1
    · simp only [List.mem_singleton] at h1
      subst h1
      exact isDigitChar_digitChar (Nat.mod_lt _ (by omega))

theorem renderFix_length : ∀ (e r : Nat), (renderFix e r).length = e := by
  intro e
  induction e with
  | zero => intro r; simp [renderFix]
  | succ f ih => intro r; simp [renderFix, ih]

theorem mod_ten_pow_succ (r e : Nat) :
    r % 10 ^ (e + 1) = 10 * (r / 10 % 10 ^ e) + r % 10 := by
  have h1 : r % (10 * 10 ^ e) / 10 = r / 10 % 10 ^ e :=
    Nat.mod_mul_right_div_self r 10 (10 ^ e)
  have h2 : r % (10 * 10 ^ e) % 10 = r % 10 := Nat.mod_mod_of_dvd r ⟨10 ^ e, rfl⟩
  have h3 := Nat.div_add_mod (r % (10 * 10 ^ e)) 10
  rw [pow_succ']
  omega

theorem digitsValFrom_renderFix : ∀ (e r acc : Nat),
    digitsValFrom acc (renderFix e r) = acc * 10 ^ e + r % 10 ^ e := by
  intro e
  induction e with
  | zero => intro r acc; simp [renderFix, digitsValFrom, Nat.mod_one]
  | succ f ih =>
    intro r acc
    simp only [renderFix]
    rw [digitsValFrom_append, ih, digitsValFrom_cons]
    simp only [digitsValFrom, List.foldl_nil]
    rw [dval_digitChar (Nat.mod_lt _ (by omega : (0:Nat) < 10))]
    rw [mod_ten_pow_succ r f, pow_succ, ← mul_assoc]
    have := Nat.mod_lt (r / 10) (show 0 < 10 ^ f from Nat.pos_pow_of_pos f (by omega))
    generalize acc * 10 ^ f = A
    omega


theorem pos_ten_pow (e : Nat) : 0 < 10 ^ e := Nat.pos_pow_of_pos e (by omega)

theorem takeDigits_dot (fs : List Char) (acc : Nat) :
    takeDigits ('.' :: fs) acc = (acc, '.' :: fs) := by
  simp [takeDigits, isDigitChar]

theorem parseUnsigned_renderNat (a : Nat) :
    parseUnsigned (renderNat a) = some ((a : Int), 0) := by
  obtain ⟨c, cs, hcc⟩ := List.exists_cons_of_ne_nil (renderNat_ne_nil a)
  have hc : isDigitChar c = true := renderNat_digits a c (by rw [hcc]; simp)
  have htake : takeDigits (c :: cs) 0 = (a, []) := by
    have h2 := takeDigits_digits_append (renderNat a) [] 0 (renderNat_digits a)
    rw [List.append_nil, digitsValFrom_renderNat] at h2
    rw [← hcc]
    simpa [takeDigits] using h2
  rw [hcc]
  simp [parseUnsigned, hc, htake]

theorem parseUnsigned_render_frac (q r e : Nat) (hr : r < 10 ^ (e + 1)) :
    parseUnsigned (renderNat q ++ '.' :: renderFix (e + 1) r) =
      some ((q : Int) * (10 : Int) ^ (e + 1) + (r : Int), e + 1) := by
  obtain ⟨c, cs, hcc⟩ := List.exists_cons_of_ne_nil (renderNat_ne_nil q)
  have hc : isDigitChar c = true := renderNat_digits q c (by rw [hcc]; simp)
  have htake : takeDigits (c :: (cs ++ '.' :: renderFix (e + 1) r)) 0 =
      (q, '.' :: renderFix (e + 1) r) := by
    have h2 := takeDigits_digits_append (renderNat q) ('.' :: renderFix (e + 1) r)
      0 (renderNat_digits q)
    rw [digitsValFrom_renderNat, takeDigits_dot] at h2
    rw [← List.cons_append, ← hcc]
    exact h2
  have hne : renderFix (e + 1) r ≠ [] := by
    intro h
    have := renderFix_length (e + 1) r
    rw [h] at this
    simp at this
  have hval : digitsValFrom 0 (renderFix (e + 1) r) = r := by
    rw [digitsValFrom_renderFix, Nat.mod_eq_of_lt hr]
    ring
  have hall : (renderFix (e + 1) r).all isDigitChar = true :=
    List.all_eq_true.2 (renderFix_digits (e + 1) r)
  rw [hcc, List.cons_append]
  simp [parseUnsigned, hc, htake, hne, hall, hval, renderFix_length]

theorem parseSigned_digit_head {c : Char} (cs : List Char)
    (hc : isDigitChar c = true) :
    parseSigned (c :: cs) = parseUnsigned (c :: cs) := by
  have hne : c ≠ '-' := by
    intro h
    rw [h] at hc
    simp [isDigitChar] at hc
  simp [parseSigned, hne]

theorem parseNumber_renderValue (m : Int) (e : Nat) :
    parseNumber (renderValue (.n m e)) = some (m, e) := by
  cases e with
  | zero =>
    rcases le_or_lt 0 m with hm | hm
    · have hmneg : ¬ m < 0 := by omega
      have hdata : (renderValue (.n m 0)).data = renderNat m.natAbs := by
        show ((⟨(if m < 0 then ['-'] else []) ++ renderNat m.natAbs⟩ : String)).data
          = renderNat m.natAbs
        rw [if_neg hmneg, List.nil_append]
      obtain ⟨c, cs, hcc⟩ := List.exists_cons_of_ne_nil (renderNat_ne_nil m.natAbs)
      have hc : isDigitChar c = true := renderNat_digits m.natAbs c (by rw [hcc]; simp)
      simp only [parseNumber, hdata]
      rw [hcc, parseSigned_digit_head _ hc, ← hcc, parseUnsigned_renderNat]
      congr 2
      omega
    · have hdata : (renderValue (.n m 0)).data = '-' :: renderNat m.natAbs := by
        show ((⟨(if m < 0 then ['-'] else []) ++ renderNat m.natAbs⟩ : String)).data
          = '-' :: renderNat m.natAbs
        rw [if_pos hm, List.singleton_append]
      simp only [parseNumber, hdata, parseSigned, if_pos, parseUnsigned_renderNat,
        Option.map_some']
      congr 2
      omega
  | succ f =>
    have hfr : m.natAbs % 10 ^ (f + 1) < 10 ^ (f + 1) :=
      Nat.mod_lt _ (pos_ten_pow (f + 1))
    have hmain := parseUnsigned_render_frac (m.natAbs / 10 ^ (f + 1))
      (m.natAbs % 10 ^ (f + 1)) f hfr
    have hdm : (10 ^ (f + 1) : Int) * ((m.natAbs / 10 ^ (f + 1) : Nat) : Int) +
        ((m.natAbs % 10 ^ (f + 1) : Nat) : Int) = (m.natAbs : Int) := by
      exact_mod_cast congrArg (Nat.cast : Nat → Int)
        (Nat.div_add_mod m.natAbs (10 ^ (f + 1)))
    rcases le_or_lt 0 m with hm | hm
    · have hmneg : ¬ m < 0 := by omega
      have hdata : (renderValue (.n m (f + 1))).data =
          renderNat (m.natAbs / 10 ^ (f + 1)) ++
            '.' :: renderFix (f + 1) (m.natAbs % 10 ^ (f + 1)) := by
        show ((⟨(if m < 0 then ['-'] else []) ++
            renderNat (m.natAbs / 10 ^ (f + 1)) ++
            '.' :: renderFix (f + 1) (m.natAbs % 10 ^ (f + 1))⟩ : String)).data = _
        rw [if_neg hmneg, List.nil_append]
      obtain ⟨c, cs, hcc⟩ :=
        List.exists_cons_of_ne_nil (renderNat_ne_nil (m.natAbs / 10 ^ (f + 1)))
      have hc : isDigitChar c = true :=
        renderNat_digits (m.natAbs / 10 ^ (f + 1)) c (by rw [hcc]; simp)
      have hsg : parseSigned (renderNat (m.natAbs / 10 ^ (f + 1)) ++
          '.' :: renderFix (f + 1) (m.natAbs % 10 ^ (f + 1))) =
          parseUnsigned (renderNat (m.natAbs / 10 ^ (f + 1)) ++
            '.' :: renderFix (f + 1) (m.natAbs % 10 ^ (f + 1))) := by
        rw [hcc, List.cons_append, parseSigned_digit_head _ hc, ← List.cons_append]
      simp only [parseNumber, hdata, hsg, hmain]
      congr 2
      have habs : (m.natAbs : Int) = m := Int.natAbs_of_nonneg hm
      rw [mul_comm] at hdm
      push_cast at hdm habs ⊢
      linarith [hdm, habs]
    · have hdata : (renderValue (.n m (f + 1))).data =
          '-' :: (renderNat (m.natAbs / 10 ^ (f + 1)) ++
            '.' :: renderFix (f + 1) (m.natAbs % 10 ^ (f + 1))) := by
        show ((⟨(if m < 0 then ['-'] else []) ++
            renderNat (m.natAbs / 10 ^ (f + 1)) ++
            '.' :: renderFix (f + 1) (m.natAbs % 10 ^ (f + 1))⟩ : String)).data = _
        rw [if_pos hm]
        rfl
      simp only [parseNumber, hdata, parseSigned, if_pos, hmain, Option.map_some']
      congr 2
      have habs : (m.natAbs : Int) = -m := Int.ofNat_natAbs_of_nonpos (by omega)
      rw [mul_comm] at hdm
      push_cast at hdm habs ⊢
      linarith [hdm, habs]

theorem coerceCell_renderValue {v : Value} (hv : v.stable) :
    coerceCell (renderValue v) = v := by
  cases v with
  | s t =>
    simp only [Value.stable] at hv
    simp [coerceCell, renderValue, hv]
  | n m e => simp [coerceCell, parseNumber_renderValue]

/-! ### Lemmas: column bookkeeping and the currency transform -/

theorem idxOf_eq_none_iff (cs : List String) (name : String) :
    idxOf cs name = none ↔ name ∉ cs := by
  induction cs with
  | nil => simp [idxOf]
  | cons c cs ih =>
    by_cases h : c = name
    · subst h; simp [idxOf]
    · simp only [idxOf, if_neg h, Option.map_eq_none', ih, List.mem_cons]
      constructor
      · intro hn hmem
        rcases hmem with h1 | h1
        · exact h h1.symm
        · exact hn h1
      · intro hn h1
        exact hn (Or.inr h1)

theorem idxOf_lt_length (cs : List String) (name : String) :
    ∀ i, idxOf cs name = some i → i < cs.length := by
  induction cs with
  | nil => intro i h; simp [idxOf] at h
  | cons c cs ih =>
    intro i h
    by_cases hc : c = name
    · simp only [idxOf, if_pos hc, Option.some_inj] at h
      simp [← h]
    · simp only [idxOf, if_neg hc] at h
      rcases Option.map_eq_some'.1 h with ⟨j, hj, rfl⟩
      have := ih j hj
      simp only [List.length_cons]
      omega

theorem idxOf_append_left (cs ds : List String) (name : String) :
    ∀ i, idxOf cs name = some i → idxOf (cs ++ ds) name = some i := by
  induction cs with
  | nil => intro i h; simp [idxOf] at h
  | cons c cs ih =>
    intro i h
    by_cases hc : c = name
    · simp only [idxOf, if_pos hc, Option.some_inj] at h
      simp [idxOf, hc, ← h]
    · simp only [idxOf, if_neg hc] at h
      rcases Option.map_eq_some'.1 h with ⟨j, hj, rfl⟩
      rw [List.cons_append]
      rw [show idxOf (c :: (cs ++ ds)) name = (idxOf (cs ++ ds) name).map (· + 1) by
        simp [idxOf, hc]]
      rw [ih j hj]
      rfl

theorem idxOf_getD (cs : List String) (name : String) :
    ∀ i, idxOf cs name = some i → cs.getD i "" = name := by
  induction cs with
  | nil => intro i h; simp [idxOf] at h
  | cons c cs ih =>
    intro i h
    by_cases hc : c = name
    · simp only [idxOf, if_pos hc, Option.some_inj] at h
      simp [← h, hc]
    · simp only [idxOf, if_neg hc] at h
      rcases Option.map_eq_some'.1 h with ⟨j, hj, rfl⟩
      simpa using ih j hj

theorem mcName_ne_sourceCol (c : String) : mcName c ≠ sourceCol := by
  intro h
  have hd : (mcName c).data.getD 1 ' ' = sourceCol.data.getD 1 ' ' := by rw [h]
  have h1 : (mcName c).data.getD 1 ' ' = 'C' := by
    cases c with
    | mk l => rfl
  rw [h1] at hd
  exact absurd hd (by decide)

theorem mapM_convertCell_numeric (p : Dec) (vals : List Value)
    (h : ∀ v ∈ vals, ∃ m e, v = Value.n m e) :
    vals.mapM (convertCell p) = some (vals.map (conv p)) := by
  induction vals with
  | nil => rfl
  | cons v vs ih =>
    obtain ⟨m, e, rfl⟩ := h v (by simp)
    simp only [List.mapM_cons, convertCell, conv, List.map_cons,
      ih (fun x hx => h x (List.mem_cons_of_mem _ hx)), Option.bind_eq_bind,
      Option.some_bind, Option.pure_def]

theorem mapM_convertCell_text (p : Dec) (vals : List Value) (t : String)
    (h : Value.s t ∈ vals) :
    vals.mapM (convertCell p) = none := by
  induction vals with
  | nil => simp at h
  | cons v vs ih =>
    rcases List.mem_cons.1 h with h1 | h1
    · rw [← h1, List.mapM_cons]
      simp [convertCell]
    · cases v with
      | s u =>
        rw [List.mapM_cons]
        simp [convertCell]
      | n m e =>
        rw [List.mapM_cons, ih h1]
        simp [convertCell]

theorem zip_map_self {α β γ : Type} (l : List α) (f : α → β) (g : α × β → γ) :
    (l.zip (l.map f)).map g = l.map (fun a => g (a, f a)) := by
  induction l with
  | nil => rfl
  | cons a l ih => simp [ih]

theorem setColumn_fresh {t : Table} {name : String} (hn : name ∉ t.cols)
    (f : List Value → Value) :
    setColumn t name (t.rows.map f) =
      ⟨t.cols ++ [name], t.rows.map (fun r => r ++ [f r])⟩ := by
  have h0 : idxOf t.cols name = none := (idxOf_eq_none_iff _ _).2 hn
  simp only [setColumn, h0]
  rw [zip_map_self]

theorem setColumn_existing {t : Table} {name : String} {j : Nat}
    (hj : idxOf t.cols name = some j) (f : List Value → Value) :
    setColumn t name (t.rows.map f) =
      ⟨t.cols, t.rows.map (fun r => r.set j (f r))⟩ := by
  simp only [setColumn, hj]
  rw [zip_map_self]

theorem transformStep_reads (t : Table) (p : String × Dec) (i : Nat)
    (hi : idxOf t.cols sourceCol = some i)
    (hnum : ∀ r ∈ t.rows, ∃ m e, r.getD i (Value.s "") = Value.n m e) :
    transformStep t p =
      .ok (setColumn t (mcName p.1)
        (t.rows.map (fun r => conv p.2 (r.getD i (Value.s ""))))) := by
  have hvnum : ∀ v ∈ t.rows.map (fun r => r.getD i (Value.s "")),
      ∃ m e, v = Value.n m e := by
    intro v hv
    rcases List.mem_map.1 hv with ⟨r, hr, rfl⟩
    exact hnum r hr
  simp only [transformStep, getColumn, hi,
    mapM_convertCell_numeric _ _ hvnum, List.map_map]
  rfl

theorem transformLoop_spec :
    ∀ (rates : List (String × Dec)) (t : Table) (i : Nat),
    t.wf →
    idxOf t.cols sourceCol = some i →
    (∀ r ∈ t.rows, ∃ m e, r.getD i (Value.s "") = Value.n m e) →
    (∀ p ∈ rates, mcName p.1 ∉ t.cols) →
    (rates.map (fun p => mcName p.1)).Nodup →
    transformLoop t rates =
      .ok ⟨t.cols ++ rates.map (fun p => mcName p.1),
        t.rows.map (fun r =>
          r ++ rates.map (fun p => conv p.2 (r.getD i (Value.s ""))))⟩ := by
  intro rates
  induction rates with
  | nil =>
    intro t i hwf hi hnum hfresh hnodup
    simp [transformLoop]
  | cons p ps ih =>
    intro t i hwf hi hnum hfresh hnodup
    have hilt : i < t.cols.length := idxOf_lt_length _ _ i hi
    have hstep := transformStep_reads t p i hi hnum
    rw [setColumn_fresh (hfresh p (List.mem_cons_self p ps))] at hstep
    simp only [transformLoop, hstep]
    rw [List.map_cons, List.nodup_cons] at hnodup
    have hih := ih ⟨t.cols ++ [mcName p.1],
        t.rows.map (fun r => r ++ [conv p.2 (r.getD i (Value.s ""))])⟩ i
      (by
        intro r hr
        rcases List.mem_map.1 hr with ⟨r0, hr0, rfl⟩
        simp [hwf r0 hr0])
      (idxOf_append_left _ _ _ i hi)
      (by
        intro r hr
        rcases List.mem_map.1 hr with ⟨r0, hr0, rfl⟩
        rw [List.getD_append _ _ _ _ (by rw [hwf r0 hr0]; exact hilt)]
        exact hnum r0 hr0)
      (by
        intro q hq
        rw [List.mem_append]
        rintro (h1 | h1)
        · exact hfresh q (List.mem_cons_of_mem _ hq) h1
        · rw [List.mem_singleton] at h1
          exact hnodup.1 (h1 ▸ List.mem_map_of_mem (fun p => mcName p.1) hq))
      hnodup.2
    rw [hih]
    congr 1
    congr 1
    · simp
    · rw [List.map_map]
      apply List.map_congr_left
      intro r hr
      have hlen : i < r.length := by rw [hwf r hr]; exact hilt
      simp only [Function.comp]
      rw [List.getD_append _ _ _ _ hlen]
      simp

theorem numeric_getD_lt_length {r : List Value} {i : Nat} {m : Int} {e : Nat}
    (h : r.getD i (Value.s "") = Value.n m e) : i < r.length := by
  by_contra hle
  rw [List.getD_eq_default _ _ (by omega)] at h
  exact absurd h (by simp)

theorem transformStep_ok_of_srcOK {t : Table} (p : String × Dec) (h : srcOK t) :
    ∃ t', transformStep t p = .ok t' ∧ srcOK t' := by
  obtain ⟨i, hi, hnum⟩ := h
  refine ⟨_, transformStep_reads t p i hi hnum, ?_⟩
  have hns : mcName p.1 ≠ sourceCol := mcName_ne_sourceCol p.1
  cases hj : idxOf t.cols (mcName p.1) with
  | none =>
    rw [setColumn_fresh ((idxOf_eq_none_iff _ _).1 hj)]
    refine ⟨i, idxOf_append_left _ _ _ i hi, ?_⟩
    intro r hr
    rcases List.mem_map.1 hr with ⟨r0, hr0, rfl⟩
    obtain ⟨m, e, hme⟩ := hnum r0 hr0
    rw [List.getD_append _ _ _ _ (numeric_getD_lt_length hme)]
    exact ⟨m, e, hme⟩
  | some j =>
    rw [setColumn_existing hj]
    refine ⟨i, hi, ?_⟩
    intro r hr
    rcases List.mem_map.1 hr with ⟨r0, hr0, rfl⟩
    have hij : i ≠ j := by
      intro hij
      apply hns
      rw [← idxOf_getD t.cols (mcName p.1) j hj, ← hij,
        idxOf_getD t.cols sourceCol i hi]
    rw [List.getD_eq_getElem?_getD, List.getElem?_set_ne (by omega),
      ← List.getD_eq_getElem?_getD]
    exact hnum r0 hr0

theorem transformLoop_ok_of_srcOK :
    ∀ (rates : List (String × Dec)) (t : Table), srcOK t →
      ∃ t', transformLoop t rates = .ok t' := by
  intro rates
  induction rates with
  | nil => intro t _; exact ⟨t, rfl⟩
  | cons p ps ih =>
    intro t h
    obtain ⟨t', hstep, h'⟩ := transformStep_ok_of_srcOK p h
    obtain ⟨t'', hloop⟩ := ih t' h'
    exact ⟨t'', by simp only [transformLoop, hstep, hloop]⟩

theorem getColumn_some {t : Table} {name : String} {vals : List Value}
    (h : getColumn t name = some vals) :
    ∃ i, idxOf t.cols name = some i ∧
      vals = t.rows.map (fun r => r.getD i (Value.s "")) := by
  cases hi : idxOf t.cols name with
  | none =>
    simp only [getColumn, hi] at h
    exact Option.noConfusion h
  | some i =>
    simp only [getColumn, hi, Option.some_inj] at h
    exact ⟨i, rfl, h.symm⟩

theorem srcOK_of_transformStep_ok {t : Table} {p : String × Dec} {t' : Table}
    (h : transformStep t p = .ok t') : srcOK t := by
  cases hg : getColumn t sourceCol with
  | none =>
    simp only [transformStep, hg] at h
    exact Except.noConfusion h
  | some vals =>
    simp only [transformStep, hg] at h
    cases hm : vals.mapM (convertCell p.2) with
    | none =>
      simp only [hm] at h
      exact Except.noConfusion h
    | some nv =>
      obtain ⟨i, hi, hvals⟩ := getColumn_some hg
      refine ⟨i, hi, ?_⟩
      intro r hr
      cases hvv : r.getD i (Value.s "") with
      | n m e => exact ⟨m, e, rfl⟩
      | s txt =>
        exfalso
        have hmem : Value.s txt ∈ vals := by
          rw [hvals, ← hvv]
          exact List.mem_map_of_mem _ hr
        rw [mapM_convertCell_text p.2 vals txt hmem] at hm
        exact Option.noConfusion hm

theorem transform_error_first_step (t : Table) (rates : List (String × Dec))
    (e : TransformError) (h : transform_market_cap t rates = .error e) :
    ∃ p ps, rates = p :: ps ∧ transformStep t p = .error e := by
  cases rates with
  | nil => simp [transform_market_cap, transformLoop] at h
  | cons p ps =>
    refine ⟨p, ps, rfl, ?_⟩
    cases hstep : transformStep t p with
    | error e' =>
      unfold transform_market_cap at h
      simp only [transformLoop, hstep] at h
      exact h
    | ok t' =>
      exfalso
      have hsrc : srcOK t' := by
        obtain ⟨tx, hsx, hok⟩ :=
          transformStep_ok_of_srcOK p (srcOK_of_transformStep_ok hstep)
        rw [hstep] at hsx
        rw [Except.ok.inj hsx]
        exact hok
      obtain ⟨t'', hloop⟩ := transformLoop_ok_of_srcOK ps t' hsrc
      unfold transform_market_cap at h
      simp only [transformLoop, hstep, hloop] at h
      exact Except.noConfusion h

theorem transform_missing_column (t : Table) (p : String × Dec)
    (ps : List (String × Dec)) (habs : sourceCol ∉ t.cols) :
    transform_market_cap t (p :: ps) = .error .missingColumn := by
  have h0 : idxOf t.cols sourceCol = none := (idxOf_eq_none_iff _ _).2 habs
  unfold transform_market_cap
  simp only [transformLoop, transformStep, getColumn, h0]

theorem transform_non_numeric (t : Table) (p : String × Dec)
    (ps : List (String × Dec)) (i : Nat) (txt : String)
    (hi : idxOf t.cols sourceCol = some i)
    (hmem : Value.s txt ∈ t.rows.map (fun r => r.getD i (Value.s ""))) :
    transform_market_cap t (p :: ps) = .error .nonNumericValue := by
  unfold transform_market_cap
  simp only [transformLoop, transformStep, getColumn, hi,
    mapM_convertCell_text p.2 _ txt hmem]

/-! ### Lemmas: anchor and table search in the document -/

theorem findFirstSpan_eq_none (anchor : String) :
    ∀ doc : List Node, (∀ nd ∈ doc, spanMatches anchor nd = false) →
      findFirstSpan anchor doc = none := by
  intro doc
  induction doc with
  | nil => intro _; rfl
  | cons nd rest ih =>
    intro h
    cases nd with
    | elem tag text =>
      have hm := h _ (List.mem_cons_self _ _)
      simp only [spanMatches] at hm
      simp only [findFirstSpan, hm, Bool.false_eq_true, if_false]
      exact ih (fun x hx => h x (List.mem_cons_of_mem _ hx))
    | table cells =>
      simp only [findFirstSpan]
      exact ih (fun x hx => h x (List.mem_cons_of_mem _ hx))

theorem findFirstSpan_append (anchor : String) :
    ∀ (pre rest : List Node), (∀ nd ∈ pre, spanMatches anchor nd = false) →
      findFirstSpan anchor (pre ++ rest) = findFirstSpan anchor rest := by
  intro pre
  induction pre with
  | nil => intro rest _; rfl
  | cons nd pre ih =>
    intro rest h
    cases nd with
    | elem tag text =>
      have hm := h _ (List.mem_cons_self _ _)
      simp only [spanMatches] at hm
      simp only [List.cons_append, findFirstSpan, hm, Bool.false_eq_true, if_false]
      exact ih rest (fun x hx => h x (List.mem_cons_of_mem _ hx))
    | table cells =>
      simp only [List.cons_append, findFirstSpan]
      exact ih rest (fun x hx => h x (List.mem_cons_of_mem _ hx))

theorem findFirstSpan_cons_match (anchor : String) (rest : List Node) :
    findFirstSpan anchor (Node.elem "span" anchor :: rest) = some rest := by
  simp [findFirstSpan]

theorem findFirstTable_append :
    ∀ (mid rest : List Node), (∀ nd ∈ mid, isTableNode nd = false) →
      findFirstTable (mid ++ rest) = findFirstTable rest := by
  intro mid
  induction mid with
  | nil => intro rest _; rfl
  | cons nd mid ih =>
    intro rest h
    cases nd with
    | elem tag text =>
      simp only [List.cons_append, findFirstTable]
      exact ih rest (fun x hx => h x (List.mem_cons_of_mem _ hx))
    | table cells =>
      have hm := h _ (List.mem_cons_self _ _)
      simp [isTableNode] at hm

theorem spanMatches_of_elemTextIs_false {anchor : String} {nd : Node}
    (h : elemTextIs anchor nd = false) : spanMatches anchor nd = false := by
  cases nd with
  | elem tag text =>
    simp only [elemTextIs, decide_eq_false_iff_not] at h
    simp [spanMatches, h]
  | table cells => rfl

/-! ### The claims -/

/-- C1 counterexample: on a table whose source column is numeric but which
already has a column named `MC_EUR_Billion`, the transform succeeds yet the
derived column is NOT appended — the column list is unchanged (the existing
column is overwritten in place), contradicting the claim's "new columns are
appended" for every such table. -/
theorem C1_counterexample :
    transform_market_cap cx1T [("EUR", (1, 0))] =
      .ok ⟨[sourceCol, "MC_EUR_Billion"], [[Value.n 100 0, Value.n 10000 2]]⟩ ∧
    ([sourceCol, "MC_EUR_Billion"] : List String) ≠
      cx1T.cols ++ ["MC_EUR_Billion"] := by
  exact ⟨rfl, by decide⟩

/-- C1 (amended): for every well-formed table whose source column
`'Market cap (US$ billion)'` exists (at position `i`) and is entirely
numeric, and whose columns do not already include any of the derived
names, `transform_market_cap` succeeds and appends, in the iteration
order of the rates map, one column `MC_<C>_Billion` per rate whose cell
in each row is `conv rate cell`, i.e. `round(x * rate, 2)` under the one
fixed rounding rule `decRound2` (round-half-to-even, including on `.xx5`
ties). -/
theorem C1_currency_columns_appended (t : Table) (rates : List (String × Dec))
    (i : Nat) (hwf : t.wf)
    (hi : idxOf t.cols sourceCol = some i)
    (hnum : ∀ r ∈ t.rows, ∃ m e, r.getD i (Value.s "") = Value.n m e)
    (hfresh : ∀ p ∈ rates, mcName p.1 ∉ t.cols)
    (hnodup : (rates.map (fun p => mcName p.1)).Nodup) :
    transform_market_cap t rates =
      .ok ⟨t.cols ++ rates.map (fun p => mcName p.1),
        t.rows.map (fun r =>
          r ++ rates.map (fun p => conv p.2 (r.getD i (Value.s ""))))⟩ :=
  transformLoop_spec rates t i hwf hi hnum hfresh hnodup

/-- C1 witness: the amended claim at a concrete one-row table and the
EUR/GBP rate map. -/
theorem C1_witness :
    transform_market_cap w1T scenarioRates =
      .ok ⟨w1T.cols ++ scenarioRates.map (fun p => mcName p.1),
        w1T.rows.map (fun r =>
          r ++ scenarioRates.map (fun p => conv p.2 (r.getD 1 (Value.s ""))))⟩ :=
  C1_currency_columns_appended w1T scenarioRates 1
    (by intro r hr; simp only [w1T, List.mem_singleton] at hr; subst hr; rfl)
    (by decide)
    (by
      intro r hr
      simp only [w1T, List.mem_singleton] at hr
      subst hr
      exact ⟨1000, 1, rfl⟩)
    (by decide)
    (by decide)

/-- C2 counterexample: on the spec's end-to-end scenario the produced
row's first cell is the NUMBER `1` (the whole cell text `"1"` parses as a
number, so the tabular collaborator coerces it), not the STRING `'1'`
the claim asserts; even value-level comparison rejects the claimed row. -/
theorem C2_counterexample :
    c2Run = some c2Result ∧
    c2Result.rows.getD 0 [] ≠
      [Value.s "1", Value.s "ExampleBank", Value.n 1000 1, Value.n 9300 2,
        Value.n 8000 2] ∧
    Value.valEq ((c2Result.rows.getD 0 []).getD 0 (Value.s ""))
      (Value.s "1") = false := by
  exact ⟨rfl, by decide, by decide⟩

/-- C2 (amended): the end-to-end scenario yields a 5-column table whose
single row is `[1, "ExampleBank", 100.0, 93.0, 80.0]` — the rank cell is
numeric `1` (not the text `'1'`), and `MC_EUR_Billion = 93.0`,
`MC_GBP_Billion = 80.0` hold value-wise. -/
theorem C2_end_to_end :
    c2Run = some c2Result ∧
    c2Result.cols =
      ["Rank", "Bank name", "Market cap (US$ billion)", "MC_EUR_Billion",
        "MC_GBP_Billion"] ∧
    c2Result.cols.length = 5 ∧
    List.zipWith Value.valEq (c2Result.rows.getD 0 [])
      [Value.n 1 0, Value.s "ExampleBank", Value.n 100 0, Value.n 93 0,
        Value.n 80 0] = [true, true, true, true, true] := by
  exact ⟨rfl, rfl, rfl, by decide⟩

/-- C3 counterexample: (i) with an EMPTY rates map the transform does not
fail at all on a table lacking the source column — the loop body never
runs, so no `MissingColumnError` arises, contradicting "for every rates
map"; (ii) on success a pre-existing column named `MC_EUR_Billion` does
NOT keep its values, contradicting "pre-existing columns' values are
unchanged in every case". -/
theorem C3_counterexample :
    (sourceCol ∉ cx3T.cols ∧ transform_market_cap cx3T [] = .ok cx3T) ∧
    (transform_market_cap cx3Over [("EUR", (1, 0))] =
        .ok ⟨[sourceCol, "MC_EUR_Billion"], [[Value.n 100 0, Value.n 10000 2]]⟩ ∧
      Value.n 10000 2 ≠ Value.s "old") := by
  exact ⟨⟨by decide, rfl⟩, ⟨rfl, by decide⟩⟩

/-- C3 (amended): for every table and NONEMPTY rates map, the transform
fails with the missing-column error when the source column is absent and
with the non-numeric error when some source cell is text; every failure
happens already at the first loop iteration, before any column has been
assigned (all-or-nothing); and on success with fresh derived names the
original columns and rows survive unchanged as a prefix (columns named
`MC_<C>_Billion` that already exist are instead overwritten, per C10). -/
theorem C3_transform_failure_modes :
    (∀ (t : Table) (p : String × Dec) (ps : List (String × Dec)),
      sourceCol ∉ t.cols →
        transform_market_cap t (p :: ps) = .error .missingColumn) ∧
    (∀ (t : Table) (p : String × Dec) (ps : List (String × Dec)) (i : Nat)
        (txt : String),
      idxOf t.cols sourceCol = some i →
      Value.s txt ∈ t.rows.map (fun r => r.getD i (Value.s "")) →
        transform_market_cap t (p :: ps) = .error .nonNumericValue) ∧
    (∀ (t : Table) (rates : List (String × Dec)) (e : TransformError),
      transform_market_cap t rates = .error e →
        ∃ p ps, rates = p :: ps ∧ transformStep t p = .error e) ∧
    (∀ (t : Table) (rates : List (String × Dec)) (i : Nat),
      t.wf →
      idxOf t.cols sourceCol = some i →
      (∀ r ∈ t.rows, ∃ m e, r.getD i (Value.s "") = Value.n m e) →
      (∀ p ∈ rates, mcName p.1 ∉ t.cols) →
      (rates.map (fun p => mcName p.1)).Nodup →
        ∃ t', transform_market_cap t rates = .ok t' ∧
          t'.cols.take t.cols.length = t.cols ∧
          t'.rows.map (fun r => r.take t.cols.length) = t.rows) := by
  refine ⟨transform_missing_column, transform_non_numeric,
    transform_error_first_step, ?_⟩
  intro t rates i hwf hi hnum hfresh hnodup
  refine ⟨_, transformLoop_spec rates t i hwf hi hnum hfresh hnodup, ?_, ?_⟩
  · exact List.take_left t.cols _
  · rw [List.map_map]
    have h1 : ∀ r ∈ t.rows,
        ((fun r => r.take t.cols.length) ∘
          (fun r => r ++ rates.map (fun p => conv p.2 (r.getD i (Value.s ""))))) r
          = id r := by
      intro r hr
      simp only [Function.comp_apply, id]
      exact List.take_left' (hwf r hr)
    rw [List.map_congr_left h1, List.map_id]

/-- C3 witness: the amended failure modes at concrete inputs with a
nonempty rates map. -/
theorem C3_witness :
    transform_market_cap cx3T [("EUR", (1, 0))] = .error .missingColumn ∧
    transform_market_cap ⟨[sourceCol], [[Value.s "abc"]]⟩ [("EUR", (1, 0))] =
      .error .nonNumericValue :=
  ⟨C3_transform_failure_modes.1 cx3T ("EUR", (1, 0)) [] (by decide),
   C3_transform_failure_modes.2.1 ⟨[sourceCol], [[Value.s "abc"]]⟩
     ("EUR", (1, 0)) [] 0 "abc" (by decide) (by decide)⟩

/-- C4 counterexample: the source anchors on `span` elements only
(`soup.find('span', string=...)`), not on "the first element of any
kind": in a document where a `div` carries the anchor text before table
`a` and a `span` carries it before table `b`, the source extracts table
`b`, while the spec-worded selection (any element) extracts table `a`. -/
theorem C4_counterexample :
    extract_table c4Doc anchorText = .ok ⟨["H"], [[Value.s "b"]]⟩ ∧
    extract_table_anyElem c4Doc anchorText = .ok ⟨["H"], [[Value.s "a"]]⟩ ∧
    (Table.mk ["H"] [[Value.s "b"]]) ≠ Table.mk ["H"] [[Value.s "a"]] := by
  exact ⟨rfl, rfl, by decide⟩

/-- C4 (amended): `extract_table` selects the first SPAN element whose
text equals the anchor exactly, takes the nearest table-like structure
following it in document order (first match only), and returns the Table
whose columns are that table's first (header) row left to right and whose
rows are the subsequent rows in document order, each cell coerced to a
number exactly when the entire cell text parses as one. -/
theorem C4_extract_table_selection (pre mid post : List Node) (anchor : String)
    (header : List String) (dataRows : List (List String))
    (hpre : ∀ nd ∈ pre, spanMatches anchor nd = false)
    (hmid : ∀ nd ∈ mid, isTableNode nd = false) :
    extract_table (pre ++ Node.elem "span" anchor ::
        (mid ++ Node.table (header :: dataRows) :: post)) anchor =
      .ok ⟨header, dataRows.map (fun r => r.map coerceCell)⟩ := by
  simp only [extract_table, findFirstSpan_append anchor pre _ hpre,
    findFirstSpan_cons_match, findFirstTable_append mid _ hmid,
    findFirstTable, fromRows]

/-- C4 witness: the amended selection at a concrete document with a
non-matching `div`, a matching `span`, an intervening non-table element
and a one-row table. -/
theorem C4_witness :
    extract_table ([Node.elem "div" anchorText] ++ Node.elem "span" anchorText ::
        ([Node.elem "p" "x"] ++ Node.table [["H"], ["7"]] :: [])) anchorText =
      .ok ⟨["H"], [[Value.n 7 0]]⟩ := by
  have h := C4_extract_table_selection [Node.elem "div" anchorText]
    [Node.elem "p" "x"] [] anchorText ["H"] [["7"]] (by decide) (by decide)
  exact h

/-- C5: when no element of the document carries the anchor text (any tag),
`extract_table` fails with the anchor-not-found error and returns no
table; and when the anchor is found but the nearest following table-like
structure is empty (undecomposable into header plus rows), it fails with
the table-parse error. -/
theorem C5_extract_errors :
    (∀ (doc : List Node) (anchor : String),
      (∀ nd ∈ doc, elemTextIs anchor nd = false) →
        extract_table doc anchor = .error .anchorNotFound) ∧
    (∀ (pre mid post : List Node) (anchor : String),
      (∀ nd ∈ pre, spanMatches anchor nd = false) →
      (∀ nd ∈ mid, isTableNode nd = false) →
        extract_table (pre ++ Node.elem "span" anchor ::
          (mid ++ Node.table [] :: post)) anchor = .error .tableParse) := by
  constructor
  · intro doc anchor h
    have h2 : ∀ nd ∈ doc, spanMatches anchor nd = false :=
      fun nd hnd => spanMatches_of_elemTextIs_false (h nd hnd)
    simp only [extract_table, findFirstSpan_eq_none anchor doc h2]
  · intro pre mid post anchor hpre hmid
    simp only [extract_table, findFirstSpan_append anchor pre _ hpre,
      findFirstSpan_cons_match, findFirstTable_append mid _ hmid,
      findFirstTable, fromRows]

/-- C5 witness: both failure modes at concrete documents. -/
theorem C5_witness :
    extract_table [Node.elem "div" "nothing here", Node.table [["H"], ["x"]]]
        anchorText = .error .anchorNotFound ∧
    extract_table ([] ++ Node.elem "span" anchorText :: ([] ++ Node.table [] :: []))
        anchorText = .error .tableParse :=
  ⟨C5_extract_errors.1 _ anchorText (by decide),
   C5_extract_errors.2 [] [] [] anchorText (by decide) (by decide)⟩

/-- C6 counterexample: when the transport call fails, `extract` catches
and logs the failure and returns `None`; `main`'s `if df is not None`
guard then skips every later stage and the process terminates NORMALLY —
exit status is success, not the non-zero status the claim requires for a
fetch failure. -/
theorem C6_counterexample :
    fetch_html c6Env.transport = .error (.transport "connection refused") ∧
    (main c6Env).exitSuccess = true ∧
    (main c6Env).loggedError = true := by
  exact ⟨rfl, rfl, rfl⟩

/-- C6 (amended): the run exits successfully iff the pipeline reaches the
end — either every stage and all queries succeed, OR fetch/extraction
failed, in which case the failure is logged and the remaining stages are
skipped but the exit status is still success; a failing transform, write,
or query yields the failure status. -/
theorem C6_exit_status (env : Env) :
    ((main env).exitSuccess = true ↔
      (extract env = none ∨
        ∃ df t', extract env = some df ∧
          transform_market_cap df env.rates = .ok t' ∧
          env.csvOk = true ∧ env.dbOk = true ∧ env.queryOk = true)) ∧
    (extract env = none → (main env).loggedError = true) := by
  cases hx : extract env with
  | none => simp [main, hx]
  | some df =>
    cases ht : transform_market_cap df env.rates with
    | error e => simp [main, hx, ht]
    | ok t' =>
      cases hcsv : env.csvOk <;> cases hdb : env.dbOk <;>
        cases hq : env.queryOk <;> simp [main, hx, ht, hcsv, hdb, hq]

/-- C6 witness: the amended claim instantiated at the failing-transport
run. -/
theorem C6_witness : (main c6Env).loggedError = true :=
  (C6_exit_status c6Env).2 (by decide)

/-- C7: if fetch or extraction fails (`extract` returns `None`), the run
logs the failure and terminates without attempting the transform, either
write, or any query; if the transform or either write fails, the error
propagates: the run terminates with failure status and no later stage is
attempted. -/
theorem C7_short_circuit (env : Env) :
    (extract env = none →
      main env = ⟨true, true, false, false, false, false⟩) ∧
    (∀ df e, extract env = some df →
      transform_market_cap df env.rates = .error e →
        main env = ⟨false, false, true, false, false, false⟩) ∧
    (∀ df t', extract env = some df →
      transform_market_cap df env.rates = .ok t' → env.csvOk = false →
        main env = ⟨false, false, true, true, false, false⟩) ∧
    (∀ df t', extract env = some df →
      transform_market_cap df env.rates = .ok t' → env.csvOk = true →
      env.dbOk = false →
        main env = ⟨false, false, true, true, true, false⟩) := by
  refine ⟨?_, ?_, ?_, ?_⟩
  · intro h
    simp [main, h]
  · intro df e h1 h2
    simp [main, h1, h2]
  · intro df t' h1 h2 h3
    simp [main, h1, h2, h3]
  · intro df t' h1 h2 h3 h4
    simp [main, h1, h2, h3, h4]

/-- C7 witness: a run with a server-error response short-circuits after
the logged extraction failure. -/
theorem C7_witness :
    main c7Env = ⟨true, true, false, false, false, false⟩ :=
  (C7_short_circuit c7Env).1 (by decide)

/-- C8: `fetch_html` makes its single transport call and returns the
response body exactly when the status is a success one (`raise_for_status`
rejects exactly the codes in `[400, 600)`); otherwise it fails with a
fetch error carrying the underlying detail — the offending status code,
or the transport-level failure detail (network error, timeout). -/
theorem C8_fetch_contract :
    (∀ (status : Nat) (body : String),
      fetch_html (.response status body) =
        if 400 ≤ status ∧ status < 600 then .error (.status status)
        else .ok body) ∧
    (∀ detail, fetch_html (.netError detail) = .error (.transport detail)) ∧
    (∀ (status : Nat) (body : String),
      fetch_html (.response status body) = .ok body ↔
        ¬(400 ≤ status ∧ status < 600)) := by
  refine ⟨fun _ _ => rfl, fun _ => rfl, ?_⟩
  intro status body
  show (if 400 ≤ status ∧ status < 600 then
      Except.error (FetchError.status status)
    else Except.ok body) = Except.ok body ↔ ¬(400 ≤ status ∧ status < 600)
  by_cases hc : 400 ≤ status ∧ status < 600
  · rw [if_pos hc]
    simp [hc]
  · rw [if_neg hc]
    simp [hc]

/-- C8 witness: the contract at a success status, a client-error status
and a transport failure. -/
theorem C8_witness :
    fetch_html (.response 200 "payload") = .ok "payload" ∧
    fetch_html (.response 404 "nf") = .error (.status 404) ∧
    fetch_html (.netError "timeout") = .error (.transport "timeout") :=
  ⟨(C8_fetch_contract.2.2 200 "payload").2 (by decide),
   (C8_fetch_contract.1 404 "nf").trans (if_pos ⟨by decide, by decide⟩),
   C8_fetch_contract.2.1 "timeout"⟩

/-- C9 counterexample: a text cell whose content is itself a decimal
literal does not survive the round trip — the re-parser coerces the field
`"1"` back to the NUMBER `1`, so the values are not the same. -/
theorem C9_counterexample :
    parseCSV (writeCSV ⟨["col"], [[Value.s "1"]]⟩) =
      some ⟨["col"], [[Value.n 1 0]]⟩ ∧
    some (Table.mk ["col"] [[Value.n 1 0]]) ≠
      some (Table.mk ["col"] [[Value.s "1"]]) := by
  exact ⟨rfl, by decide⟩

/-- C9 (amended): for every table whose text cells are not themselves
decimal literals (numeric cells are unrestricted — these include all
derived, rounded values), writing to the flat file and re-parsing it
(header line plus one line per row) returns exactly the same table: same
column names, same row count, same values. -/
theorem C9_csv_round_trip (t : Table)
    (h : ∀ r ∈ t.rows, ∀ v ∈ r, v.stable) :
    parseCSV (writeCSV t) = some t := by
  have hrows : (t.rows.map (fun r => r.map renderValue)).map
      (fun r => r.map coerceCell) = t.rows := by
    rw [List.map_map]
    have h1 : ∀ r ∈ t.rows,
        ((fun r => r.map coerceCell) ∘ (fun r => r.map renderValue)) r = id r := by
      intro r hr
      simp only [Function.comp_apply, id, List.map_map]
      have h2 : ∀ v ∈ r, (coerceCell ∘ renderValue) v = id v :=
        fun v hv => coerceCell_renderValue (h r hr v hv)
      rw [List.map_congr_left h2, List.map_id]
    rw [List.map_congr_left h1, List.map_id]
  simp only [writeCSV, parseCSV, hrows]

/-- C9 witness: the round trip at a concrete table holding a bank name
and a rounded derived value. -/
theorem C9_witness : parseCSV (writeCSV w9T) = some w9T :=
  C9_csv_round_trip w9T (by decide)

/-- C10: when the table already has a column named `MC_<C>_Billion` for a
rate `C`, the transform does not append a duplicate: the column list is
unchanged (so the resulting column count, `|cols|`, is smaller than
`|cols| + 1`, the original count plus the number of rates), and the
pre-existing column's cells are overwritten in place with the freshly
computed `round(x * rate, 2)` values. -/
theorem C10_overwrite_in_place (t : Table) (c : String) (rate : Dec)
    (i j : Nat)
    (hi : idxOf t.cols sourceCol = some i)
    (hj : idxOf t.cols (mcName c) = some j)
    (hnum : ∀ r ∈ t.rows, ∃ m e, r.getD i (Value.s "") = Value.n m e) :
    transform_market_cap t [(c, rate)] =
      .ok ⟨t.cols,
        t.rows.map (fun r => r.set j (conv rate (r.getD i (Value.s ""))))⟩ ∧
    t.cols.length < t.cols.length + 1 := by
  constructor
  · have hstep := transformStep_reads t (c, rate) i hi hnum
    rw [setColumn_existing hj] at hstep
    unfold transform_market_cap
    simp only [transformLoop, hstep]
  · omega

/-- C10 witness: the overwrite at a concrete table whose `MC_EUR_Billion`
column holds the text `"old"` beforehand. -/
theorem C10_witness :
    transform_market_cap cx10T [("EUR", (1, 0))] =
      .ok ⟨cx10T.cols,
        cx10T.rows.map (fun r => r.set 1 (conv (1, 0) (r.getD 0 (Value.s ""))))⟩ ∧
    cx10T.cols.length < cx10T.cols.length + 1 :=
  C10_overwrite_in_place cx10T "EUR" (1, 0) 0 1 (by decide) (by decide)
    (by
      intro r hr
      simp only [cx10T, List.mem_singleton] at hr
      subst hr
      exact ⟨100, 0, rfl⟩)

end Banks
